import Mathlib

/-!
Verification of the finding-lifecycle / anchor-reconciliation core of the
`opencode-diffs` plugin (`src/index.ts`).

The TypeScript core is shallowly embedded: JS strings become `List Char`
(`Str`), JS numbers carried by draft findings become `JsNum` (a finite
rational or a non-finite value, mirroring `Number.isFinite` checks), and
the `Date.now()` / `crypto.randomUUID()` effects become explicit `now` /
`uuid` parameters.  Each definition mirrors the function of the same name
in `src/index.ts`.
-/

namespace DiffReview

/-- JS strings, modelled as lists of characters. -/
abbrev Str := List Char

/-- A JS number as validated by `Number.isFinite`: either a finite value
(modelled as a rational, so fractional line numbers and `Math.floor` are
faithful) or a non-finite value (`NaN`/`Infinity`). -/
inductive JsNum where
  | finite (q : ℚ)
  | nonFinite
deriving DecidableEq

/-- `Anchor` record from `src/index.ts`. -/
structure Anchor where
  before : Str
  selected : Str
  after : Str
deriving DecidableEq

/-- Finding status enumeration. -/
inductive Status where
  | open
  | closed_auto
  | resolved
deriving DecidableEq

/-- Close-reason enumeration. -/
inductive CloseReason where
  | file_removed
  | anchor_missing
deriving DecidableEq

/-- `Finding` record from `src/index.ts`.  `side`, `category` and
`severity` are kept as raw strings since at runtime they arrive from
unvalidated JSON; `sanitize` checks them against the closed enumerations. -/
structure Finding where
  id : Str
  round : Nat
  file : Str
  side : Str
  start_line : Int
  end_line : Int
  category : Str
  severity : Str
  comment : Str
  status : Status
  anchor : Anchor
  created_at : Nat
  updated_at : Nat
  closed_at : Option Nat
  close_reason : Option CloseReason
deriving DecidableEq

/-- `DraftFinding` record from `src/index.ts` (raw reviewer input). -/
structure DraftFinding where
  id : Option Str
  file : Str
  side : Str
  start_line : JsNum
  end_line : JsNum
  category : Str
  severity : Str
  comment : Str
deriving DecidableEq

/-- `Draft` record from `src/index.ts`. -/
structure Draft where
  notes : Str
  new_findings : List DraftFinding
deriving DecidableEq

/-- `State` record from `src/index.ts` (the persisted session state). -/
structure State where
  session_id : Str
  round : Nat
  findings : List Finding
  draft : Option Draft
  updated_at : Nat
deriving DecidableEq

/-- `ReviewFile` record from `src/index.ts` (a file snapshot). -/
structure ReviewFile where
  path : Str
  status : Str
  additions : Int
  deletions : Int
  before : Str
  after : Str
deriving DecidableEq

/-- The record returned by `remap` on success. -/
structure Remapped where
  start_line : Int
  end_line : Int
deriving DecidableEq

/-- `categories.includes(input)` from `src/index.ts`. -/
def isCategory (s : Str) : Bool :=
  s = "bug".data || s = "style".data || s = "perf".data || s = "question".data

/-- `severities.includes(input)` from `src/index.ts`. -/
def isSeverity (s : Str) : Bool :=
  s = "high".data || s = "medium".data || s = "low".data

/-- `sides.includes(input)` from `src/index.ts`. -/
def isSide (s : Str) : Bool :=
  s = "additions".data || s = "deletions".data

/-- JS whitespace for `String.prototype.trim` (common cases). -/
def isWs (c : Char) : Bool :=
  c = ' ' || c = '\t' || c = '\n' || c = '\r'

/-- JS `s.trim()`. -/
def trimStr (s : Str) : Str :=
  ((s.dropWhile isWs).reverse.dropWhile isWs).reverse

/-- JS `s.split("\n")` on a single-character separator. -/
def splitNl : Str → List Str
  | [] => [[]]
  | c :: rest =>
    if c = '\n' then [] :: splitNl rest
    else
      match splitNl rest with
      | [] => [[c]]
      | l :: ls => (c :: l) :: ls

/-- JS `parts.join("\n")`. -/
def joinNl : List Str → Str
  | [] => []
  | [x] => x
  | x :: y :: ys => x ++ '\n' :: joinNl (y :: ys)

/-- Number of newline characters in a string. -/
def countNl (s : Str) : Nat := s.count '\n'

/-- JS `hay.indexOf(needle)` starting from accumulated position `k`. -/
def indexOfFrom (needle : Str) : Str → Nat → Option Nat
  | hay, k =>
    if needle.isPrefixOf hay then some k
    else
      match hay with
      | [] => none
      | _ :: t => indexOfFrom needle t (k + 1)

/-- JS `hay.indexOf(needle)` (leftmost occurrence, `none` for `-1`). -/
def indexOf (needle hay : Str) : Option Nat := indexOfFrom needle hay 0

/-- JS `lines[i] ?? ""` with a possibly negative index. -/
def lineAt (lines : List Str) (i : Int) : Str :=
  if i < 0 then [] else lines.getD i.toNat []

/-- `normalize(start, end)` from `src/index.ts`. -/
def normalize (start finish : Int) : Int × Int :=
  if start ≤ finish then (start, finish) else (finish, start)

/-- `anchor(content, start, end)` from `src/index.ts` (the Anchor Codec's
capture). -/
def anchor (content : Str) (start finish : Int) : Anchor :=
  let range := normalize start finish
  let lines := splitNl content
  let len : Int := (lines.length : Int)
  let lenOrOne : Int := if len = 0 then 1 else len
  let b := max 1 (min range.1 lenOrOne)
  let lenOrB : Int := if len = 0 then b else len
  let f := max b (min range.2 lenOrB)
  { before := lineAt lines (b - 2)
    selected := joinNl ((lines.drop (b - 1).toNat).take (f - b + 1).toNat)
    after := lineAt lines f }

/-- `remap(item, file)` from `src/index.ts` (the Anchor Codec's locate). -/
def remap (item : Finding) (file : ReviewFile) : Option Remapped :=
  let text := if item.side = "deletions".data then file.before else file.after
  if item.anchor.selected = [] then none
  else
    match indexOf item.anchor.selected text with
    | none => none
    | some i =>
      let pre := text.take i
      let start : Int := ((splitNl pre).length : Int)
      let size : Int := max 1 (((splitNl item.anchor.selected).length : Int))
      some { start_line := start, end_line := start + size - 1 }

/-- JS `new Map(files.map(f => [f.path, f])).get(p)`: last entry wins on
duplicate keys. -/
def mapGet (files : List ReviewFile) (p : Str) : Option ReviewFile :=
  files.reverse.find? (fun f => decide (f.path = p))

/-- The per-item body of `reconcile` from `src/index.ts`. -/
def reconcileItem (files : List ReviewFile) (now : Nat) (item : Finding) : Finding :=
  if item.status ≠ Status.open then item
  else
    match mapGet files item.file with
    | none =>
      { item with
        status := Status.closed_auto
        close_reason := some CloseReason.file_removed
        closed_at := some now
        updated_at := now }
    | some file =>
      match remap item file with
      | none =>
        { item with
          status := Status.closed_auto
          close_reason := some CloseReason.anchor_missing
          closed_at := some now
          updated_at := now }
      | some next =>
        { item with
          start_line := next.start_line
          end_line := next.end_line
          updated_at := now }

/-- `reconcile(files, findings)` from `src/index.ts`, with `Date.now()`
passed explicitly. -/
def reconcile (files : List ReviewFile) (findings : List Finding) (now : Nat) : List Finding :=
  findings.map (reconcileItem files now)

/-- Decimal digits of `n` (most significant first), with structural fuel
so that the kernel can evaluate it. -/
def natToStrAux : Nat → Nat → Str
  | 0, _ => []
  | fuel + 1, n =>
    if n = 0 then [] else natToStrAux fuel (n / 10) ++ [Nat.digitChar (n % 10)]

/-- JS `String(n)`: decimal representation of a natural number. -/
def natToStr (n : Nat) : Str :=
  if n = 0 then ['0'] else natToStrAux n n

/-- The template string `finding_<round>_<index+1>_<suffix>` from
`sanitize` in `src/index.ts`. -/
def synthId (round : Nat) (index : Nat) (suffix : Str) : Str :=
  "finding_".data ++ natToStr round ++ "_".data ++ natToStr (index + 1) ++ "_".data ++ suffix

/-- The per-item body of `sanitize` from `src/index.ts`.  `index` is the
item's position in the submitted batch, `uuid index` models the fresh
`crypto.randomUUID().slice(0, 6)` drawn for that item. -/
def sanitizeOne (round : Nat) (files : List ReviewFile) (now : Nat) (uuid : Nat → Str)
    (index : Nat) (item : DraftFinding) : List Finding :=
  if item.file = [] then []
  else if trimStr item.comment = [] then []
  else if !(isSide item.side) then []
  else if !(isCategory item.category) then []
  else if !(isSeverity item.severity) then []
  else
    match item.start_line, item.end_line with
    | JsNum.finite s, JsNum.finite e =>
      match mapGet files item.file with
      | none => []
      | some file =>
        let start_line : Int := max 1 ⌊min s e⌋
        let end_line : Int := max start_line ⌊max s e⌋
        let source := if item.side = "deletions".data then file.before else file.after
        let next := anchor source start_line end_line
        if trimStr next.selected = [] then []
        else
          let id :=
            match item.id with
            | some raw => if trimStr raw = [] then synthId round index (uuid index) else trimStr raw
            | none => synthId round index (uuid index)
          [{ id := id
             round := round
             file := item.file
             side := item.side
             start_line := start_line
             end_line := end_line
             category := item.category
             severity := item.severity
             comment := trimStr item.comment
             status := Status.open
             anchor := next
             created_at := now
             updated_at := now
             closed_at := none
             close_reason := none }]
    | _, _ => []

/-- `items.flatMap((item, index) => ...)` with the running batch index. -/
def sanitizeAux (round : Nat) (files : List ReviewFile) (now : Nat) (uuid : Nat → Str) :
    List DraftFinding → Nat → List Finding
  | [], _ => []
  | item :: rest, index =>
    sanitizeOne round files now uuid index item ++ sanitizeAux round files now uuid rest (index + 1)

/-- `sanitize(items, round, files)` from `src/index.ts`. -/
def sanitize (items : List DraftFinding) (round : Nat) (files : List ReviewFile)
    (now : Nat) (uuid : Nat → Str) : List Finding :=
  sanitizeAux round files now uuid items 0

/-- `base.findings.filter(item => item.status === "open")` (the submit
handler's `carry`). -/
def openFindings (findings : List Finding) : List Finding :=
  findings.filter (fun item => decide (item.status = Status.open))

/-- `base.findings.filter(item => item.status !== "open")` (the submit
handler's `closed`). -/
def closedFindings (findings : List Finding) : List Finding :=
  findings.filter (fun item => decide (item.status ≠ Status.open))

/-- The state written right after reconciliation when the tool launches
(`const base: State = { ...state, findings: merged, updated_at: ... }` in
`src/index.ts`); this is the last state persisted when a round is
cancelled. -/
def launchState (state : State) (files : List ReviewFile) (now : Nat) : State :=
  { state with findings := reconcile files state.findings now, updated_at := now }

/-- The state written by the submit handler in `src/index.ts`
(`round = base.round + 1`, `findings = [...closed, ...carry, ...created]`,
`draft: undefined`). -/
def submitState (base : State) (files : List ReviewFile) (fresh : List DraftFinding)
    (now : Nat) (uuid : Nat → Str) : State :=
  let round := base.round + 1
  let created := sanitize fresh round files now uuid
  let carry := openFindings base.findings
  let closed := closedFindings base.findings
  { base with
    round := round
    findings := closed ++ carry ++ created
    draft := none
    updated_at := now }

/-- `Done` record from `src/index.ts` (fields relevant to the core). -/
structure Done where
  cancelled : Bool
  round : Nat
  notes : Str
  findings : List Finding
deriving DecidableEq

/-- The `Done` value produced by the abort listener in `src/index.ts`:
`{cancelled: true, round: base.round + 1, notes: "", findings:
base.findings, ...}`; no state is persisted by this path. -/
def abortDone (base : State) : Done :=
  { cancelled := true, round := base.round + 1, notes := [], findings := base.findings }

/-- Replace the first list element satisfying `p` (models the in-place
mutation of the object returned by `base.findings.find(...)`). -/
def updateFirst (p : Finding → Bool) (f : Finding → Finding) : List Finding → List Finding
  | [] => []
  | x :: xs => if p x then f x :: xs else x :: updateFirst p f xs

/-- The resolve handler from `src/index.ts`: rejects a falsy `finding_id`
(HTTP 400) or an id with no open finding (HTTP 404, no mutation);
otherwise stamps the first open finding with that id as `resolved` and
persists the updated state. -/
def resolveAction (base : State) (fid : Str) (now : Nat) : Option State :=
  if fid = [] then none
  else if (base.findings.find? (fun i => decide (i.id = fid ∧ i.status = Status.open))).isSome then
    some { base with
      findings :=
        updateFirst (fun i => decide (i.id = fid ∧ i.status = Status.open))
          (fun t => { t with status := Status.resolved, updated_at := now, closed_at := some now })
          base.findings
      updated_at := now }
  else none

/-! ### Basic facts about the line splitting and joining helpers -/

theorem splitNl_ne_nil (s : Str) : splitNl s ≠ [] := by
  induction s with
  | nil => simp [splitNl]
  | cons c rest ih =>
    unfold splitNl
    by_cases hc : c = '\n'
    · simp [hc]
    · simp only [if_neg hc]
      cases h : splitNl rest <;> simp

theorem countNl_cons (c : Char) (s : Str) :
    countNl (c :: s) = countNl s + (if c = '\n' then 1 else 0) := by
  simp [countNl, List.count_cons]

theorem splitNl_length (s : Str) : (splitNl s).length = countNl s + 1 := by
  induction s with
  | nil => simp [splitNl, countNl]
  | cons c rest ih =>
    unfold splitNl
    rw [countNl_cons]
    by_cases hc : c = '\n'
    · simp [hc, ih]
    · simp only [if_neg hc]
      cases h : splitNl rest with
      | nil => exact absurd h (splitNl_ne_nil rest)
      | cons l ls =>
        rw [h] at ih
        simpa [hc] using ih

theorem joinNl_cons {rest : List Str} (x : Str) (h : rest ≠ []) :
    joinNl (x :: rest) = x ++ '\n' :: joinNl rest := by
  cases rest with
  | nil => exact absurd rfl h
  | cons y ys => rfl

theorem joinNl_splitNl (s : Str) : joinNl (splitNl s) = s := by
  induction s with
  | nil => simp [splitNl, joinNl]
  | cons c rest ih =>
    unfold splitNl
    by_cases hc : c = '\n'
    · subst hc
      rw [if_pos rfl, joinNl_cons _ (splitNl_ne_nil rest), ih]
      simp
    · rw [if_neg hc]
      cases h : splitNl rest with
      | nil => exact absurd h (splitNl_ne_nil rest)
      | cons l ls =>
        rw [h] at ih
        cases ls with
        | nil =>
          simp only [joinNl] at ih ⊢
          rw [← ih]
        | cons l2 ls2 =>
          rw [joinNl_cons _ (by simp)] at ih
          rw [joinNl_cons _ (by simp), ← ih]
          rfl

theorem splitNl_no_nl (s : Str) : ∀ l ∈ splitNl s, '\n' ∉ l := by
  induction s with
  | nil => simp [splitNl]
  | cons c rest ih =>
    unfold splitNl
    by_cases hc : c = '\n'
    · rw [if_pos hc]
      intro l hl
      rcases List.mem_cons.mp hl with rfl | hl'
      · simp
      · exact ih l hl'
    · rw [if_neg hc]
      cases h : splitNl rest with
      | nil => exact absurd h (splitNl_ne_nil rest)
      | cons l ls =>
        rw [h] at ih
        intro x hx
        rcases List.mem_cons.mp hx with rfl | hx'
        · intro hmem
          rcases List.mem_cons.mp hmem with heq | hmem'
          · exact hc heq.symm
          · exact ih l (by simp) hmem'
        · exact ih x (List.mem_cons_of_mem _ hx')

theorem countNl_append (a b : Str) : countNl (a ++ b) = countNl a + countNl b := by
  simp [countNl]

theorem joinNl_append {xs ys : List Str} (hx : xs ≠ []) (hy : ys ≠ []) :
    joinNl (xs ++ ys) = joinNl xs ++ '\n' :: joinNl ys := by
  induction xs with
  | nil => exact absurd rfl hx
  | cons a as ih =>
    cases as with
    | nil =>
      simp only [List.cons_append, List.nil_append]
      rw [joinNl_cons _ hy]
      rfl
    | cons b bs =>
      have h1 : joinNl ((a :: b :: bs) ++ ys) = a ++ '\n' :: joinNl ((b :: bs) ++ ys) := by
        rw [List.cons_append, joinNl_cons _ (by simp)]
      rw [h1, ih (by simp), joinNl_cons _ (by simp : (b :: bs : List Str) ≠ [])]
      simp

theorem countNl_joinNl {ls : List Str} (hnl : ∀ l ∈ ls, '\n' ∉ l) (h : ls ≠ []) :
    countNl (joinNl ls) + 1 = ls.length := by
  induction ls with
  | nil => exact absurd rfl h
  | cons x xs ih =>
    cases xs with
    | nil =>
      have : countNl x = 0 := List.count_eq_zero.mpr (hnl x (by simp))
      simp [joinNl, this]
    | cons y ys =>
      rw [joinNl_cons _ (by simp)]
      have hx : countNl x = 0 := List.count_eq_zero.mpr (hnl x (by simp))
      have ht := ih (fun l hl => hnl l (List.mem_cons_of_mem _ hl)) (by simp)
      rw [countNl_append, countNl_cons, hx]
      simp at ht ⊢
      omega

/-! ### Facts about `indexOf` (leftmost exact-substring search) -/

theorem indexOfFrom_isSome (needle : Str) :
    ∀ (s t : Str) (k : Nat), (indexOfFrom needle (s ++ needle ++ t) k).isSome := by
  intro s
  induction s with
  | nil =>
    intro t k
    unfold indexOfFrom
    rw [if_pos (List.isPrefixOf_iff_prefix.mpr ⟨t, by simp⟩)]
    rfl
  | cons c cs ih =>
    intro t k
    unfold indexOfFrom
    by_cases hp : needle.isPrefixOf ((c :: cs) ++ needle ++ t)
    · rw [if_pos hp]; rfl
    · rw [if_neg hp]
      simpa using ih t (k + 1)

theorem indexOfFrom_le (needle : Str) :
    ∀ (s t : Str) (k i : Nat),
      indexOfFrom needle (s ++ needle ++ t) k = some i → i ≤ k + s.length := by
  intro s
  induction s with
  | nil =>
    intro t k i h
    unfold indexOfFrom at h
    rw [if_pos (List.isPrefixOf_iff_prefix.mpr ⟨t, by simp⟩)] at h
    injection h with h
    omega
  | cons c cs ih =>
    intro t k i h
    unfold indexOfFrom at h
    by_cases hp : needle.isPrefixOf ((c :: cs) ++ needle ++ t)
    · rw [if_pos hp] at h
      injection h with h
      omega
    · rw [if_neg hp] at h
      simp only [List.cons_append] at h
      have := ih t (k + 1) i h
      simp only [List.length_cons]
      omega

theorem indexOfFrom_spec (needle : Str) :
    ∀ (hay : Str) (k i : Nat), indexOfFrom needle hay k = some i →
      k ≤ i ∧ ∃ s t, hay = s ++ needle ++ t ∧ k + s.length = i := by
  intro hay
  induction hay with
  | nil =>
    intro k i h
    unfold indexOfFrom at h
    by_cases hp : needle.isPrefixOf ([] : Str)
    · rw [if_pos hp] at h
      injection h with h
      subst h
      have hn : needle = [] := List.prefix_nil.mp (List.isPrefixOf_iff_prefix.mp hp)
      exact ⟨le_refl _, [], [], by simp [hn], by simp⟩
    · rw [if_neg hp] at h
      exact absurd h (by simp)
  | cons c cs ih =>
    intro k i h
    unfold indexOfFrom at h
    by_cases hp : needle.isPrefixOf (c :: cs)
    · rw [if_pos hp] at h
      injection h with h
      subst h
      obtain ⟨t, ht⟩ := List.isPrefixOf_iff_prefix.mp hp
      exact ⟨le_refl _, [], t, by simp [← ht], by simp⟩
    · rw [if_neg hp] at h
      obtain ⟨hk, s, t, hst, hlen⟩ := ih (k + 1) i h
      exact ⟨by omega, c :: s, t, by simp [hst], by simp only [List.length_cons]; omega⟩

theorem indexOf_isSome {needle text s t : Str} (h : text = s ++ needle ++ t) :
    (indexOf needle text).isSome := by
  rw [indexOf, h]
  exact indexOfFrom_isSome needle s t 0

theorem indexOf_le {needle text s t : Str} {i : Nat} (h : text = s ++ needle ++ t)
    (hi : indexOf needle text = some i) : i ≤ s.length := by
  rw [indexOf, h] at hi
  simpa using indexOfFrom_le needle s t 0 i hi

theorem indexOf_spec {needle text : Str} {i : Nat} (hi : indexOf needle text = some i) :
    ∃ s t, text = s ++ needle ++ t ∧ s.length = i := by
  obtain ⟨-, s, t, hst, hlen⟩ := indexOfFrom_spec needle text 0 i hi
  exact ⟨s, t, hst, by omega⟩

/-! ### The Anchor Codec on an in-range line pair -/

theorem anchor_of_le (text : Str) (a b : Nat) (ha : 1 ≤ a) (hab : a ≤ b)
    (hb : b ≤ (splitNl text).length) :
    anchor text (a : Int) (b : Int) =
      { before := lineAt (splitNl text) ((a : Int) - 2)
        selected := joinNl (((splitNl text).drop (a - 1)).take (b - a + 1))
        after := lineAt (splitNl text) (b : Int) } := by
  have hlen0 : (splitNl text).length ≠ 0 :=
    fun h0 => splitNl_ne_nil text (List.length_eq_zero.mp h0)
  have hlen : ¬(((splitNl text).length : Int) = 0) := by exact_mod_cast hlen0
  have hab' : (a : Int) ≤ (b : Int) := by exact_mod_cast hab
  have hb' : (b : Int) ≤ ((splitNl text).length : Int) := by exact_mod_cast hb
  have ha' : (1 : Int) ≤ (a : Int) := by exact_mod_cast ha
  have hmin1 : min (a : Int) ((splitNl text).length : Int) = (a : Int) :=
    min_eq_left (le_trans hab' hb')
  have hmax1 : max (1 : Int) (a : Int) = (a : Int) := max_eq_right ha'
  have hmin2 : min (b : Int) ((splitNl text).length : Int) = (b : Int) := min_eq_left hb'
  have hmax2 : max (a : Int) (b : Int) = (b : Int) := max_eq_right hab'
  have h1 : ((a : Int) - 1).toNat = a - 1 := by omega
  have h2 : ((b : Int) - (a : Int) + 1).toNat = b - a + 1 := by omega
  simp only [anchor, normalize, if_pos hab', if_neg hlen, hmin1, hmax1, hmin2, hmax2, h1, h2]

theorem joinNl_decompose (lines : List Str) (a b : Nat) (ha : 1 ≤ a) (hab : a ≤ b)
    (hb : b ≤ lines.length) (hnl : ∀ l ∈ lines, '\n' ∉ l) :
    ∃ s t, joinNl lines = s ++ joinNl ((lines.drop (a - 1)).take (b - a + 1)) ++ t ∧
      countNl s = a - 1 := by
  set pre := lines.take (a - 1) with hpre_def
  set slice := (lines.drop (a - 1)).take (b - a + 1) with hslice_def
  set post := (lines.drop (a - 1)).drop (b - a + 1) with hpost_def
  have hsplit : lines = pre ++ (slice ++ post) := by
    rw [hslice_def, hpost_def, List.take_append_drop, hpre_def, List.take_append_drop]
  have hdroplen : (lines.drop (a - 1)).length = lines.length - (a - 1) := List.length_drop _ _
  have hslice_len : slice.length = b - a + 1 := by
    rw [hslice_def, List.length_take, hdroplen]
    omega
  have hslice_ne : slice ≠ [] := by
    intro h0
    rw [h0] at hslice_len
    simp at hslice_len
  have hpre_nl : ∀ l ∈ pre, '\n' ∉ l := fun l hl => hnl l ((List.take_sublist _ _).subset hl)
  have hprelen : pre.length = a - 1 := by
    rw [hpre_def, List.length_take]
    omega
  by_cases hpre : pre = []
  · have ha1 : a - 1 = 0 := by rw [← hprelen, hpre]; rfl
    by_cases hpost : post = []
    · refine ⟨[], [], ?_, by simp [countNl, ha1]⟩
      rw [hsplit, hpre, hpost]
      simp
    · refine ⟨[], '\n' :: joinNl post, ?_, by simp [countNl, ha1]⟩
      rw [hsplit, hpre]
      simp only [List.nil_append]
      rw [joinNl_append hslice_ne hpost]
  · have h1 : joinNl lines = joinNl pre ++ '\n' :: joinNl (slice ++ post) := by
      rw [hsplit, joinNl_append hpre (by simp [hslice_ne])]
    have hcountpre : countNl (joinNl pre) + 1 = pre.length := countNl_joinNl hpre_nl hpre
    have hnlone : countNl ('\n' :: ([] : Str)) = 1 := by decide
    by_cases hpost : post = []
    · refine ⟨joinNl pre ++ ['\n'], [], ?_, ?_⟩
      · rw [h1, hpost, List.append_nil]
        simp
      · rw [countNl_append, hnlone]
        omega
    · refine ⟨joinNl pre ++ ['\n'], '\n' :: joinNl post, ?_, ?_⟩
      · rw [h1, joinNl_append hslice_ne hpost]
        simp
      · rw [countNl_append, hnlone]
        omega

theorem selected_sublist_no_nl (text : Str) (a b : Nat) :
    ∀ l ∈ ((splitNl text).drop (a - 1)).take (b - a + 1), '\n' ∉ l :=
  fun l hl =>
    splitNl_no_nl text l
      (((List.take_sublist _ _).trans (List.drop_sublist _ _)).subset hl)

/-- C1 (amended): round-trip law of the Anchor Codec.  For every document
and valid 1-based pair `a ≤ b` within it, if the captured anchor's
selected text is non-empty then locating it (`remap`) in the unchanged
document succeeds and returns a region spanning the same number of lines
(`end - start = b - a`) that starts at or before line `a` — the leftmost
occurrence of the selected text.  It equals `{a, b}` exactly when no
earlier occurrence exists; when the selected lines join to the empty
string, locating fails. -/
theorem c1_locate_capture (text : Str) (a b : Nat) (item : Finding) (fl : ReviewFile)
    (ha : 1 ≤ a) (hab : a ≤ b) (hb : b ≤ (splitNl text).length)
    (hside : item.side = "additions".data)
    (hanc : item.anchor = anchor text (a : Int) (b : Int))
    (hafter : fl.after = text)
    (hsel : item.anchor.selected ≠ []) :
    ∃ r, remap item fl = some r ∧ 1 ≤ r.start_line ∧ r.start_line ≤ (a : Int) ∧
      r.end_line - r.start_line = (b : Int) - (a : Int) := by
  have hanch := anchor_of_le text a b ha hab hb
  have hselval : item.anchor.selected = joinNl (((splitNl text).drop (a - 1)).take (b - a + 1)) := by
    rw [hanc, hanch]
  obtain ⟨s₀, t₀, hdec, hc₀⟩ :=
    joinNl_decompose (splitNl text) a b ha hab hb (splitNl_no_nl text)
  rw [joinNl_splitNl] at hdec
  rw [← hselval] at hdec
  have hside_ne : ¬(item.side = "deletions".data) := by
    rw [hside]
    decide
  have htext : (if item.side = "deletions".data then fl.before else fl.after) = text := by
    rw [if_neg hside_ne, hafter]
  have hisSome : (indexOf item.anchor.selected text).isSome := indexOf_isSome hdec
  obtain ⟨i, hi⟩ := Option.isSome_iff_exists.mp hisSome
  obtain ⟨s, t, hst, hslen⟩ := indexOf_spec hi
  have hile : i ≤ s₀.length := indexOf_le hdec hi
  have htake : text.take i = s := by
    rw [hst, List.append_assoc, ← hslen, List.take_left]
  have htake2 : text.take i = s₀.take i := by
    rw [hdec, List.append_assoc, List.take_append_of_le_length hile]
  have hcount_le : countNl s ≤ a - 1 := by
    rw [← hc₀, ← htake, htake2]
    exact (List.take_prefix i s₀).sublist.count_le '\n'
  -- the span of the selected text
  have hslice_len : (((splitNl text).drop (a - 1)).take (b - a + 1)).length = b - a + 1 := by
    rw [List.length_take, List.length_drop]
    omega
  have hslice_ne : (((splitNl text).drop (a - 1)).take (b - a + 1)) ≠ [] := by
    intro h0
    rw [h0] at hslice_len
    simp at hslice_len
  have hselcount : countNl item.anchor.selected + 1 = b - a + 1 := by
    rw [hselval, countNl_joinNl (selected_sublist_no_nl text a b) hslice_ne]
    exact hslice_len
  have hsellen : ((splitNl item.anchor.selected).length : Int) = (b : Int) - (a : Int) + 1 := by
    rw [splitNl_length]
    push_cast
    omega
  have hstartval : ((splitNl (text.take i)).length : Int) = (countNl s : Int) + 1 := by
    rw [htake, splitNl_length]
    push_cast
    ring
  have hmax : max (1 : Int) ((splitNl item.anchor.selected).length : Int) =
      ((splitNl item.anchor.selected).length : Int) := by
    rw [splitNl_length]
    apply max_eq_right
    push_cast
    omega
  have hremap : remap item fl =
      some { start_line := ((splitNl (List.take i text)).length : Int),
             end_line := ((splitNl (List.take i text)).length : Int) +
               max 1 ((splitNl item.anchor.selected).length : Int) - 1 } := by
    simp only [remap, htext, if_neg hsel, hi]
  refine ⟨_, hremap, ?_, ?_, ?_⟩
  · show (1 : Int) ≤ ((splitNl (List.take i text)).length : Int)
    rw [hstartval]
    have : (0 : Int) ≤ (countNl s : Int) := by positivity
    omega
  · show ((splitNl (List.take i text)).length : Int) ≤ (a : Int)
    rw [hstartval]
    have ha' : (1 : Int) ≤ (a : Int) := by exact_mod_cast ha
    have hc : (countNl s : Int) ≤ ((a : Int) - 1) := by
      have h1 : ((countNl s : Nat) : Int) ≤ ((a - 1 : Nat) : Int) := by exact_mod_cast hcount_le
      omega
    omega
  · show ((splitNl (List.take i text)).length : Int) +
        max 1 ((splitNl item.anchor.selected).length : Int) - 1 -
        ((splitNl (List.take i text)).length : Int) = (b : Int) - (a : Int)
    rw [hmax, hsellen]
    ring

/-- A finding used as C1's counterexample: it carries the anchor captured
from the two-line document `"a\na"` at lines `2..2`. -/
def c1Item : Finding :=
  { id := ['x']
    round := 1
    file := ['f']
    side := "additions".data
    start_line := 2
    end_line := 2
    category := "bug".data
    severity := "low".data
    comment := ['c']
    status := Status.open
    anchor := anchor "a\na".data 2 2
    created_at := 0
    updated_at := 0
    closed_at := none
    close_reason := none }

/-- The unchanged snapshot of the document `"a\na"`. -/
def c1File : ReviewFile :=
  { path := ['f']
    status := "modified".data
    additions := 0
    deletions := 0
    before := []
    after := "a\na".data }

/-- A finding anchored at the blank line 2 of `"x\n\ny"` (its captured
selected text is empty). -/
def c1BlankItem : Finding :=
  { c1Item with anchor := anchor "x\n\ny".data 2 2 }

/-- The unchanged snapshot of the document `"x\n\ny"`. -/
def c1BlankFile : ReviewFile :=
  { c1File with after := "x\n\ny".data }

/-- C1 counterexample: in the document `"a\na"` the anchor captured at
lines `2..2` (selected text `"a"`) relocates to the *first* occurrence,
lines `1..1`, not to `{start_line: 2, end_line: 2}`; and the anchor
captured at the blank line `2..2` of `"x\n\ny"` has empty selected text,
so locating it in the unchanged document fails outright. -/
theorem c1_counterexample :
    remap c1Item c1File = some { start_line := 1, end_line := 1 } ∧
    remap c1Item c1File ≠ some { start_line := 2, end_line := 2 } ∧
    (anchor "x\n\ny".data 2 2).selected = [] ∧
    remap c1BlankItem c1BlankFile = none := by
  decide

/-- Witness: C1's amended theorem applied to the document `"ab\ncd"` with
the in-range pair `1 ≤ 2`. -/
theorem c1_witness :
    ∃ r, remap { c1Item with anchor := anchor "ab\ncd".data 1 2 }
        { c1File with after := "ab\ncd".data } = some r ∧
      1 ≤ r.start_line ∧ r.start_line ≤ ((1 : Nat) : Int) ∧
      r.end_line - r.start_line = ((2 : Nat) : Int) - ((1 : Nat) : Int) :=
  c1_locate_capture "ab\ncd".data 1 2
    { c1Item with anchor := anchor "ab\ncd".data 1 2 }
    { c1File with after := "ab\ncd".data }
    (by decide) (by decide) (by decide) (by decide) rfl rfl (by decide)

/-! ### The Reconciler -/

theorem reconcile_getElem (files : List ReviewFile) (findings : List Finding) (now k : Nat)
    {item : Finding} (hk : findings[k]? = some item) :
    (reconcile files findings now)[k]? = some (reconcileItem files now item) := by
  rw [reconcile, List.getElem?_map, hk, Option.map_some']

theorem reconcileItem_not_open (files : List ReviewFile) (now : Nat) {item : Finding}
    (h : item.status ≠ Status.open) : reconcileItem files now item = item := by
  rw [reconcileItem, if_pos h]

theorem reconcileItem_id (files : List ReviewFile) (now : Nat) (item : Finding) :
    (reconcileItem files now item).id = item.id := by
  rw [reconcileItem]
  split
  · rfl
  · cases hm : mapGet files item.file with
    | none => simp [hm]
    | some fl =>
      cases hr : remap item fl with
      | none => simp [hm, hr]
      | some nxt => simp [hm, hr]

theorem remap_update (item : Finding) (fl : ReviewFile) (s e : Int) (n : Nat) :
    remap { item with start_line := s, end_line := e, updated_at := n } fl = remap item fl := by
  simp [remap]

/-- C2: the per-finding case analysis of `reconcile`.  Every finding with
status `open` is transitioned to `closed_auto`/`file_removed` when no file
snapshot exists for its file; otherwise, when its stored anchor is not
located in the side-selected text (`remap` returns nothing), it is
transitioned to `closed_auto`/`anchor_missing`; otherwise only its
`start_line`/`end_line` are overwritten with the located range and
`updated_at` is bumped. -/
theorem c2_reconcile_cases (files : List ReviewFile) (findings : List Finding) (now k : Nat)
    (item : Finding) (hk : findings[k]? = some item) (hopen : item.status = Status.open) :
    (mapGet files item.file = none →
      (reconcile files findings now)[k]? = some
        { item with
          status := Status.closed_auto
          close_reason := some CloseReason.file_removed
          closed_at := some now
          updated_at := now }) ∧
    (∀ fl, mapGet files item.file = some fl → remap item fl = none →
      (reconcile files findings now)[k]? = some
        { item with
          status := Status.closed_auto
          close_reason := some CloseReason.anchor_missing
          closed_at := some now
          updated_at := now }) ∧
    (∀ fl nxt, mapGet files item.file = some fl → remap item fl = some nxt →
      (reconcile files findings now)[k]? = some
        { item with
          start_line := nxt.start_line
          end_line := nxt.end_line
          updated_at := now }) := by
  have hmap := reconcile_getElem files findings now k hk
  refine ⟨?_, ?_, ?_⟩
  · intro h
    rw [hmap]
    simp [reconcileItem, hopen, h]
  · intro fl h hr
    rw [hmap]
    simp [reconcileItem, hopen, h, hr]
  · intro fl nxt h hr
    rw [hmap]
    simp [reconcileItem, hopen, h, hr]

/-- Witness for C2: a one-finding list whose file has no snapshot is
auto-closed as `file_removed`. -/
theorem c2_witness :
    ([c1Item][0]? = some c1Item ∧ c1Item.status = Status.open ∧
      mapGet [] c1Item.file = none) ∧
    (reconcile [] [c1Item] 7)[0]? = some
      { c1Item with
        status := Status.closed_auto
        close_reason := some CloseReason.file_removed
        closed_at := some 7
        updated_at := 7 } :=
  ⟨⟨by decide, by decide, by decide⟩,
    (c2_reconcile_cases [] [c1Item] 7 0 c1Item (by decide) (by decide)).1 (by decide)⟩

/-- C4: the frame condition of `reconcile`: the output has the same length
and the same finding ids in the same order; findings already
`closed_auto` or `resolved` are returned completely unchanged; and a
successfully relocated open finding changes only `start_line`,
`end_line` and `updated_at` (in particular its anchor is not
recaptured). -/
theorem c4_reconcile_frame (files : List ReviewFile) (findings : List Finding) (now : Nat) :
    (reconcile files findings now).length = findings.length ∧
    (reconcile files findings now).map (fun f => f.id) = findings.map (fun f => f.id) ∧
    ∀ (k : Nat) (item : Finding), findings[k]? = some item →
      ((item.status = Status.closed_auto ∨ item.status = Status.resolved) →
        (reconcile files findings now)[k]? = some item) ∧
      (∀ fl nxt, item.status = Status.open → mapGet files item.file = some fl →
        remap item fl = some nxt →
        (reconcile files findings now)[k]? = some
          { item with
            start_line := nxt.start_line
            end_line := nxt.end_line
            updated_at := now }) := by
  refine ⟨by simp [reconcile], ?_, ?_⟩
  · rw [reconcile, List.map_map]
    exact List.map_congr_left (fun a _ => reconcileItem_id files now a)
  · intro k item hk
    have hmap := reconcile_getElem files findings now k hk
    refine ⟨?_, ?_⟩
    · intro hst
      rw [hmap, reconcileItem_not_open files now]
      rcases hst with h | h <;> rw [h] <;> simp
    · intro fl nxt hopen h hr
      rw [hmap]
      simp [reconcileItem, hopen, h, hr]

/-- Witness for C4: a resolved finding passes through `reconcile`
unchanged. -/
theorem c4_witness :
    ([{ c1Item with status := Status.resolved }][0]? =
        some { c1Item with status := Status.resolved }) ∧
    (reconcile [] [{ c1Item with status := Status.resolved }] 9)[0]? =
      some { c1Item with status := Status.resolved } :=
  ⟨by decide,
    ((c4_reconcile_frame [] [{ c1Item with status := Status.resolved }] 9).2.2 0
      { c1Item with status := Status.resolved } (by decide)).1 (Or.inr (by decide))⟩

theorem reconcileItem_file_removed (files : List ReviewFile) (now : Nat) {item : Finding}
    (hopen : item.status = Status.open) (h : mapGet files item.file = none) :
    reconcileItem files now item =
      { item with
        status := Status.closed_auto
        close_reason := some CloseReason.file_removed
        closed_at := some now
        updated_at := now } := by
  rw [reconcileItem, if_neg (by rw [hopen]; simp), h]

theorem reconcileItem_anchor_missing (files : List ReviewFile) (now : Nat) {item : Finding}
    {fl : ReviewFile} (hopen : item.status = Status.open)
    (h : mapGet files item.file = some fl) (hr : remap item fl = none) :
    reconcileItem files now item =
      { item with
        status := Status.closed_auto
        close_reason := some CloseReason.anchor_missing
        closed_at := some now
        updated_at := now } := by
  rw [reconcileItem, if_neg (by rw [hopen]; simp), h]
  simp only [hr]

theorem reconcileItem_relocated (files : List ReviewFile) (now : Nat) {item : Finding}
    {fl : ReviewFile} {nxt : Remapped} (hopen : item.status = Status.open)
    (h : mapGet files item.file = some fl) (hr : remap item fl = some nxt) :
    reconcileItem files now item =
      { item with
        start_line := nxt.start_line
        end_line := nxt.end_line
        updated_at := now } := by
  rw [reconcileItem, if_neg (by rw [hopen]; simp), h]
  simp only [hr]

/-- C7: stability of `reconcile` under an unchanged file set.  After a
first application, a second application with the same snapshots leaves
every `closed_auto`/`resolved` finding identical, and every finding still
`open` after the second application kept the `start_line`/`end_line` the
first application gave it. -/
theorem c7_reconcile_stable (files : List ReviewFile) (findings : List Finding)
    (now1 now2 k : Nat) :
    (∀ item : Finding, (reconcile files findings now1)[k]? = some item →
      (item.status = Status.closed_auto ∨ item.status = Status.resolved) →
      (reconcile files (reconcile files findings now1) now2)[k]? = some item) ∧
    (∀ item : Finding,
      (reconcile files (reconcile files findings now1) now2)[k]? = some item →
      item.status = Status.open →
      ∃ prev : Finding, (reconcile files findings now1)[k]? = some prev ∧
        prev.status = Status.open ∧
        item.start_line = prev.start_line ∧ item.end_line = prev.end_line) := by
  constructor
  · intro item h1 hst
    have := reconcile_getElem files (reconcile files findings now1) now2 k h1
    rw [this, reconcileItem_not_open files now2]
    rcases hst with h | h <;> rw [h] <;> simp
  · intro item h2 hopen
    cases hk : findings[k]? with
    | none =>
      rw [reconcile, List.getElem?_map, reconcile, List.getElem?_map, hk] at h2
      simp at h2
    | some orig =>
      have h1 : (reconcile files findings now1)[k]? =
          some (reconcileItem files now1 orig) := reconcile_getElem files findings now1 k hk
      have h2' : item = reconcileItem files now2 (reconcileItem files now1 orig) := by
        have := reconcile_getElem files (reconcile files findings now1) now2 k h1
        rw [this] at h2
        exact (Option.some_inj.mp h2).symm
      by_cases horig : orig.status = Status.open
      · cases hm : mapGet files orig.file with
        | none =>
          rw [reconcileItem_file_removed files now1 horig hm] at h2'
          rw [reconcileItem_not_open files now2 (by simp)] at h2'
          rw [h2'] at hopen
          simp at hopen
        | some fl =>
          cases hr : remap orig fl with
          | none =>
            rw [reconcileItem_anchor_missing files now1 horig hm hr] at h2'
            rw [reconcileItem_not_open files now2 (by simp)] at h2'
            rw [h2'] at hopen
            simp at hopen
          | some nxt =>
            rw [reconcileItem_relocated files now1 horig hm hr] at h2'
            have hopen1 : ({ orig with
                start_line := nxt.start_line
                end_line := nxt.end_line
                updated_at := now1 } : Finding).status = Status.open := horig
            have hm1 : mapGet files ({ orig with
                start_line := nxt.start_line
                end_line := nxt.end_line
                updated_at := now1 } : Finding).file = some fl := hm
            have hr1 : remap { orig with
                start_line := nxt.start_line
                end_line := nxt.end_line
                updated_at := now1 } fl = some nxt := by
              rw [remap_update]
              exact hr
            rw [reconcileItem_relocated files now2 hopen1 hm1 hr1] at h2'
            refine ⟨_, h1, ?_, ?_, ?_⟩
            · rw [reconcileItem_relocated files now1 horig hm hr]
              exact horig
            · rw [h2', reconcileItem_relocated files now1 horig hm hr]
            · rw [h2', reconcileItem_relocated files now1 horig hm hr]
      · rw [reconcileItem_not_open files now1 horig,
          reconcileItem_not_open files now2 horig] at h2'
        rw [h2'] at hopen
        exact absurd hopen horig

/-- Witness for C7: an auto-closed finding is untouched by a second
reconciliation against the same (empty) file set. -/
theorem c7_witness :
    ((reconcile [] [c1Item] 3)[0]? = some
        { c1Item with
          status := Status.closed_auto
          close_reason := some CloseReason.file_removed
          closed_at := some 3
          updated_at := 3 } ∧
      ({ c1Item with
          status := Status.closed_auto
          close_reason := some CloseReason.file_removed
          closed_at := some 3
          updated_at := 3 } : Finding).status = Status.closed_auto) ∧
    (reconcile [] (reconcile [] [c1Item] 3) 5)[0]? = some
      { c1Item with
        status := Status.closed_auto
        close_reason := some CloseReason.file_removed
        closed_at := some 3
        updated_at := 3 } :=
  ⟨⟨by decide, by decide⟩,
    (c7_reconcile_stable [] [c1Item] 3 5 0).1
      { c1Item with
        status := Status.closed_auto
        close_reason := some CloseReason.file_removed
        closed_at := some 3
        updated_at := 3 }
      (by decide) (Or.inl (by decide))⟩

/-! ### The Draft Sanitizer -/

theorem mem_sanitizeAux (round : Nat) (files : List ReviewFile) (now : Nat) (uuid : Nat → Str) :
    ∀ (items : List DraftFinding) (k : Nat) (f : Finding),
      f ∈ sanitizeAux round files now uuid items k →
      ∃ (j : Nat) (item : DraftFinding), items[j]? = some item ∧
        f ∈ sanitizeOne round files now uuid (k + j) item := by
  intro items
  induction items with
  | nil =>
    intro k f h
    simp [sanitizeAux] at h
  | cons x xs ih =>
    intro k f h
    rw [sanitizeAux] at h
    rcases List.mem_append.mp h with h1 | h2
    · exact ⟨0, x, by simp, by simpa using h1⟩
    · obtain ⟨j, item, hj, hf⟩ := ih (k + 1) f h2
      refine ⟨j + 1, item, by simpa using hj, ?_⟩
      rw [show k + (j + 1) = (k + 1) + j by omega]
      exact hf

/-- Full characterization of a finding emitted by one `sanitize` step. -/
theorem sanitizeOne_mem (round : Nat) (files : List ReviewFile) (now : Nat) (uuid : Nat → Str)
    (index : Nat) (item : DraftFinding) (f : Finding)
    (h : f ∈ sanitizeOne round files now uuid index item) :
    ∃ (s e : ℚ) (fl : ReviewFile),
      item.file ≠ [] ∧ trimStr item.comment ≠ [] ∧
      isSide item.side = true ∧ isCategory item.category = true ∧
      isSeverity item.severity = true ∧
      item.start_line = JsNum.finite s ∧ item.end_line = JsNum.finite e ∧
      mapGet files item.file = some fl ∧
      trimStr (anchor (if item.side = "deletions".data then fl.before else fl.after)
        (max 1 ⌊min s e⌋) (max (max 1 ⌊min s e⌋) ⌊max s e⌋)).selected ≠ [] ∧
      f = { id :=
              match item.id with
              | some raw =>
                if trimStr raw = [] then synthId round index (uuid index) else trimStr raw
              | none => synthId round index (uuid index)
            round := round
            file := item.file
            side := item.side
            start_line := max 1 ⌊min s e⌋
            end_line := max (max 1 ⌊min s e⌋) ⌊max s e⌋
            category := item.category
            severity := item.severity
            comment := trimStr item.comment
            status := Status.open
            anchor := anchor (if item.side = "deletions".data then fl.before else fl.after)
              (max 1 ⌊min s e⌋) (max (max 1 ⌊min s e⌋) ⌊max s e⌋)
            created_at := now
            updated_at := now
            closed_at := none
            close_reason := none } := by
  rw [sanitizeOne] at h
  by_cases h1 : item.file = []
  · rw [if_pos h1] at h
    simp at h
  rw [if_neg h1] at h
  by_cases h2 : trimStr item.comment = []
  · rw [if_pos h2] at h
    simp at h
  rw [if_neg h2] at h
  cases h3 : isSide item.side with
  | false =>
    rw [h3] at h
    simp at h
  | true =>
  rw [h3] at h
  cases h4 : isCategory item.category with
  | false =>
    rw [h4] at h
    simp at h
  | true =>
  rw [h4] at h
  cases h5 : isSeverity item.severity with
  | false =>
    rw [h5] at h
    simp at h
  | true =>
  rw [h5] at h
  simp only [Bool.not_true, Bool.false_eq_true, if_false] at h
  cases hs : item.start_line with
  | nonFinite =>
    rw [hs] at h
    simp at h
  | finite s =>
  cases he : item.end_line with
  | nonFinite =>
    rw [hs, he] at h
    simp at h
  | finite e =>
  rw [hs, he] at h
  cases hm : mapGet files item.file with
  | none =>
    rw [hm] at h
    simp at h
  | some fl =>
  rw [hm] at h
  dsimp only at h
  by_cases h6 : trimStr (anchor (if item.side = "deletions".data then fl.before else fl.after)
      (max 1 ⌊min s e⌋) (max (max 1 ⌊min s e⌋) ⌊max s e⌋)).selected = []
  · rw [if_pos h6] at h
    simp at h
  · rw [if_neg h6] at h
    refine ⟨s, e, fl, h1, h2, rfl, rfl, rfl, rfl, rfl, rfl, h6, ?_⟩
    simpa using h

/-- C5: well-formedness of `sanitize` output.  Every emitted finding has
`side`/`category`/`severity` in the closed enumerations, status `open`,
comment equal to the trimmed non-empty input comment, and line numbers
normalized as `start_line = max 1 (floor (min s e))` and
`end_line = max start_line (floor (max s e))`; in particular
`1 ≤ start_line ≤ end_line`. -/
theorem c5_sanitize_wf (items : List DraftFinding) (round : Nat) (files : List ReviewFile)
    (now : Nat) (uuid : Nat → Str) (f : Finding)
    (h : f ∈ sanitize items round files now uuid) :
    isSide f.side = true ∧ isCategory f.category = true ∧ isSeverity f.severity = true ∧
    f.status = Status.open ∧ 1 ≤ f.start_line ∧ f.start_line ≤ f.end_line ∧
    ∃ (j : Nat) (item : DraftFinding) (s e : ℚ), items[j]? = some item ∧
      f.comment = trimStr item.comment ∧ trimStr item.comment ≠ [] ∧
      item.start_line = JsNum.finite s ∧ item.end_line = JsNum.finite e ∧
      f.start_line = max 1 ⌊min s e⌋ ∧ f.end_line = max f.start_line ⌊max s e⌋ := by
  obtain ⟨j, item, hj, hf⟩ := mem_sanitizeAux round files now uuid items 0 f h
  obtain ⟨s, e, fl, -, hcm, hside, hcat, hsev, hs, he, -, -, hrec⟩ :=
    sanitizeOne_mem round files now uuid (0 + j) item f hf
  subst hrec
  exact ⟨hside, hcat, hsev, rfl, le_max_left _ _, le_max_left _ _,
    j, item, s, e, by simpa using hj, rfl, hcm, hs, he, rfl, rfl⟩

/-- A well-formed draft item (inverted range `5..3`) used by witnesses. -/
def c5Item : DraftFinding :=
  { id := none
    file := ['f']
    side := "additions".data
    start_line := JsNum.finite 5
    end_line := JsNum.finite 3
    category := "bug".data
    severity := "high".data
    comment := " leak ".data }

/-- A five-line snapshot for the witnesses. -/
def c5File : ReviewFile :=
  { path := ['f']
    status := "modified".data
    additions := 0
    deletions := 0
    before := []
    after := "l1\nl2\nl3\nl4\nl5".data }

/-- The finding `sanitize` emits for `c5Item` against `c5File`. -/
def c5Finding : Finding :=
  { id := synthId 1 0 ['z']
    round := 1
    file := ['f']
    side := "additions".data
    start_line := 3
    end_line := 5
    category := "bug".data
    severity := "high".data
    comment := "leak".data
    status := Status.open
    anchor := anchor "l1\nl2\nl3\nl4\nl5".data 3 5
    created_at := 0
    updated_at := 0
    closed_at := none
    close_reason := none }

/-- Witness for C5: the inverted range `5..3` normalizes to `3..5` and the
emitted finding is well-formed. -/
theorem c5_witness :
    c5Finding ∈ sanitize [c5Item] 1 [c5File] 0 (fun _ => ['z']) ∧
    (isSide c5Finding.side = true ∧ isCategory c5Finding.category = true ∧
      isSeverity c5Finding.severity = true ∧ c5Finding.status = Status.open ∧
      1 ≤ c5Finding.start_line ∧ c5Finding.start_line ≤ c5Finding.end_line ∧
      ∃ (j : Nat) (item : DraftFinding) (s e : ℚ), [c5Item][j]? = some item ∧
        c5Finding.comment = trimStr item.comment ∧ trimStr item.comment ≠ [] ∧
        item.start_line = JsNum.finite s ∧ item.end_line = JsNum.finite e ∧
        c5Finding.start_line = max 1 ⌊min s e⌋ ∧
        c5Finding.end_line = max c5Finding.start_line ⌊max s e⌋) :=
  ⟨by decide, c5_sanitize_wf [c5Item] 1 [c5File] 0 (fun _ => ['z']) c5Finding (by decide)⟩

theorem sanitizeAux_append (round : Nat) (files : List ReviewFile) (now : Nat)
    (uuid : Nat → Str) :
    ∀ (xs ys : List DraftFinding) (k : Nat),
      sanitizeAux round files now uuid (xs ++ ys) k =
        sanitizeAux round files now uuid xs k ++
        sanitizeAux round files now uuid ys (k + xs.length) := by
  intro xs
  induction xs with
  | nil =>
    intro ys k
    simp [sanitizeAux]
  | cons x xs ih =>
    intro ys k
    rw [List.cons_append, sanitizeAux, sanitizeAux, ih ys (k + 1), List.append_assoc]
    rw [show k + 1 + xs.length = k + (xs.length + 1) by omega]
    rfl

/-- A draft item failing one of `sanitize`'s validation checks contributes
nothing, at any batch position. -/
theorem sanitizeOne_skip (round : Nat) (files : List ReviewFile) (now : Nat) (uuid : Nat → Str)
    (index : Nat) (item : DraftFinding)
    (h : item.file = [] ∨ trimStr item.comment = [] ∨ isSide item.side = false ∨
      isCategory item.category = false ∨ isSeverity item.severity = false ∨
      item.start_line = JsNum.nonFinite ∨ item.end_line = JsNum.nonFinite ∨
      mapGet files item.file = none ∨
      (∀ (s e : ℚ) (fl : ReviewFile), item.start_line = JsNum.finite s →
        item.end_line = JsNum.finite e → mapGet files item.file = some fl →
        trimStr (anchor (if item.side = "deletions".data then fl.before else fl.after)
          (max 1 ⌊min s e⌋) (max (max 1 ⌊min s e⌋) ⌊max s e⌋)).selected = [])) :
    sanitizeOne round files now uuid index item = [] := by
  rw [sanitizeOne]
  by_cases h1 : item.file = []
  · rw [if_pos h1]
  rw [if_neg h1]
  by_cases h2 : trimStr item.comment = []
  · rw [if_pos h2]
  rw [if_neg h2]
  cases h3 : isSide item.side with
  | false => simp
  | true =>
  cases h4 : isCategory item.category with
  | false => simp
  | true =>
  cases h5 : isSeverity item.severity with
  | false => simp
  | true =>
  simp only [Bool.not_true, Bool.false_eq_true, if_false]
  cases hs : item.start_line with
  | nonFinite => rfl
  | finite s =>
  cases he : item.end_line with
  | nonFinite => rfl
  | finite e =>
  cases hm : mapGet files item.file with
  | none => rfl
  | some fl =>
  dsimp only
  rcases h with h | h | h | h | h | h | h | h | h
  · exact absurd h h1
  · exact absurd h h2
  · rw [h3] at h
    exact absurd h (by simp)
  · rw [h4] at h
    exact absurd h (by simp)
  · rw [h5] at h
    exact absurd h (by simp)
  · rw [hs] at h
    exact absurd h (by simp)
  · rw [he] at h
    exact absurd h (by simp)
  · rw [hm] at h
    exact absurd h (by simp)
  · rw [if_pos (h s e fl hs he hm)]

/-- C9: per-item rejection in `sanitize` is local.  A raw item failing any
validation check (missing file, blank comment, invalid side/category/
severity, non-finite line numbers, file not in the index, or anchor text
trimming to empty) contributes nothing, and the remaining items of the
batch are sanitized exactly as they would be with the bad item present —
the rest of the batch is unaffected. -/
theorem c9_skip_local (round : Nat) (files : List ReviewFile) (now : Nat) (uuid : Nat → Str)
    (pre post : List DraftFinding) (bad : DraftFinding)
    (h : bad.file = [] ∨ trimStr bad.comment = [] ∨ isSide bad.side = false ∨
      isCategory bad.category = false ∨ isSeverity bad.severity = false ∨
      bad.start_line = JsNum.nonFinite ∨ bad.end_line = JsNum.nonFinite ∨
      mapGet files bad.file = none ∨
      (∀ (s e : ℚ) (fl : ReviewFile), bad.start_line = JsNum.finite s →
        bad.end_line = JsNum.finite e → mapGet files bad.file = some fl →
        trimStr (anchor (if bad.side = "deletions".data then fl.before else fl.after)
          (max 1 ⌊min s e⌋) (max (max 1 ⌊min s e⌋) ⌊max s e⌋)).selected = [])) :
    sanitizeOne round files now uuid pre.length bad = [] ∧
    sanitize (pre ++ bad :: post) round files now uuid =
      sanitizeAux round files now uuid pre 0 ++
      sanitizeAux round files now uuid post (pre.length + 1) := by
  have hskip := sanitizeOne_skip round files now uuid pre.length bad h
  refine ⟨hskip, ?_⟩
  rw [sanitize, sanitizeAux_append, sanitizeAux, Nat.zero_add, hskip, List.nil_append]

/-- Witness for C9: a batch of a valid item followed by an invalid one
(blank comment): the invalid item contributes nothing and the valid item
is sanitized unaffected. -/
theorem c9_witness :
    trimStr ({ c5Item with comment := " ".data } : DraftFinding).comment = [] ∧
    (sanitizeOne 1 [c5File] 0 (fun _ => ['z']) 1
        { c5Item with comment := " ".data } = [] ∧
      sanitize [c5Item, { c5Item with comment := " ".data }] 1 [c5File] 0 (fun _ => ['z']) =
        sanitizeAux 1 [c5File] 0 (fun _ => ['z']) [c5Item] 0 ++
        sanitizeAux 1 [c5File] 0 (fun _ => ['z']) [] 2) :=
  ⟨by decide,
    c9_skip_local 1 [c5File] 0 (fun _ => ['z']) [c5Item] []
      { c5Item with comment := " ".data } (Or.inr (Or.inl (by decide)))⟩

theorem drop_pred_eq_getLast {α : Type} :
    ∀ (l : List α) (h : l ≠ []), l.drop (l.length - 1) = [l.getLast h] := by
  intro l
  induction l with
  | nil => intro h; exact absurd rfl h
  | cons x xs ih =>
    intro h
    cases xs with
    | nil => rfl
    | cons y ys =>
      have hys : (y :: ys : List α) ≠ [] := by simp
      have hlen : (x :: y :: ys : List α).length - 1 = ys.length + 1 := by simp
      rw [hlen, List.drop_succ_cons, List.getLast_cons hys]
      simpa using ih hys

/-- When the requested range lies entirely past the end of the document,
`anchor` clamps both ends to the last line and captures exactly it. -/
theorem anchor_past_end (content : Str) (st en : Int)
    (hst : ((splitNl content).length : Int) < st) (hen : st ≤ en) :
    (anchor content st en).selected = (splitNl content).getLast (splitNl_ne_nil content) := by
  have hlen0 : (splitNl content).length ≠ 0 :=
    fun h0 => splitNl_ne_nil content (List.length_eq_zero.mp h0)
  have hlen : ¬(((splitNl content).length : Int) = 0) := by exact_mod_cast hlen0
  have h1 : (1 : Int) ≤ ((splitNl content).length : Int) := by
    exact_mod_cast Nat.one_le_iff_ne_zero.mpr hlen0
  have hmin1 : min st ((splitNl content).length : Int) = ((splitNl content).length : Int) :=
    min_eq_right (le_of_lt hst)
  have hmax1 : max (1 : Int) ((splitNl content).length : Int) =
      ((splitNl content).length : Int) := max_eq_right h1
  have hmin2 : min en ((splitNl content).length : Int) = ((splitNl content).length : Int) :=
    min_eq_right (le_trans (le_of_lt hst) hen)
  have htoN1 : (((splitNl content).length : Int) - 1).toNat = (splitNl content).length - 1 := by
    omega
  have htoN2 :
      (((splitNl content).length : Int) - ((splitNl content).length : Int) + 1).toNat = 1 := by
    omega
  simp only [anchor, normalize, if_pos hen, if_neg hlen, hmin1, hmax1, hmin2, max_self,
    htoN1, htoN2]
  rw [drop_pred_eq_getLast (splitNl content) (splitNl_ne_nil content)]
  rfl

/-- C10 (implicit): `sanitize` accepts out-of-bounds line ranges by
clamping instead of rejecting.  When the normalized `start_line` exceeds
the comparison text's line count, the anchor is captured at the last line
of the file, and if that last line is non-blank the item is emitted as a
finding anchored at the final line rather than skipped. -/
theorem c10_clamp_past_end (round : Nat) (files : List ReviewFile) (now : Nat)
    (uuid : Nat → Str) (index : Nat) (item : DraftFinding) (fl : ReviewFile) (s e : ℚ)
    (src : Str)
    (h1 : item.file ≠ []) (h2 : trimStr item.comment ≠ [])
    (h3 : isSide item.side = true) (h4 : isCategory item.category = true)
    (h5 : isSeverity item.severity = true)
    (hs : item.start_line = JsNum.finite s) (he : item.end_line = JsNum.finite e)
    (hm : mapGet files item.file = some fl)
    (hsrc : src = if item.side = "deletions".data then fl.before else fl.after)
    (hpast : ((splitNl src).length : Int) < max 1 ⌊min s e⌋) :
    (anchor src (max 1 ⌊min s e⌋) (max (max 1 ⌊min s e⌋) ⌊max s e⌋)).selected =
      (splitNl src).getLast (splitNl_ne_nil src) ∧
    (trimStr ((splitNl src).getLast (splitNl_ne_nil src)) ≠ [] →
      ∃ f : Finding, sanitizeOne round files now uuid index item = [f] ∧
        f.anchor.selected = (splitNl src).getLast (splitNl_ne_nil src) ∧
        f.status = Status.open ∧ f.start_line = max 1 ⌊min s e⌋ ∧
        f.end_line = max (max 1 ⌊min s e⌋) ⌊max s e⌋) := by
  have hanc := anchor_past_end src (max 1 ⌊min s e⌋) (max (max 1 ⌊min s e⌋) ⌊max s e⌋)
    hpast (le_max_left _ _)
  refine ⟨hanc, fun hne => ?_⟩
  rw [sanitizeOne, if_neg h1, if_neg h2, h3, h4, h5]
  simp only [Bool.not_true, Bool.false_eq_true, if_false]
  rw [hs, he]
  dsimp only
  rw [hm]
  dsimp only
  rw [← hsrc, if_neg (by rw [hanc]; exact hne)]
  exact ⟨_, rfl, hanc, rfl, rfl, rfl⟩

/-- A draft item asking for lines `99..99` of a two-line file. -/
def c10Item : DraftFinding :=
  { id := none
    file := ['f']
    side := "additions".data
    start_line := JsNum.finite 99
    end_line := JsNum.finite 99
    category := "bug".data
    severity := "high".data
    comment := ['x'] }

/-- A two-line snapshot for C10's witness. -/
def c10File : ReviewFile :=
  { path := ['f']
    status := "modified".data
    additions := 0
    deletions := 0
    before := []
    after := "line1\nline2".data }

/-- Witness for C10: requesting lines `99..99` of the two-line file emits
a finding anchored at the final line `"line2"`. -/
theorem c10_witness :
    (((splitNl "line1\nline2".data).length : Int) < max 1 ⌊min (99 : ℚ) 99⌋ ∧
      trimStr ((splitNl "line1\nline2".data).getLast
        (splitNl_ne_nil ("line1\nline2".data))) ≠ []) ∧
    ∃ f : Finding, sanitizeOne 1 [c10File] 0 (fun _ => ['z']) 0 c10Item = [f] ∧
      f.anchor.selected = (splitNl "line1\nline2".data).getLast
        (splitNl_ne_nil ("line1\nline2".data)) ∧
      f.status = Status.open ∧ f.start_line = max 1 ⌊min (99 : ℚ) 99⌋ ∧
      f.end_line = max (max 1 ⌊min (99 : ℚ) 99⌋) ⌊max (99 : ℚ) 99⌋ :=
  ⟨⟨by decide, by decide⟩,
    (c10_clamp_past_end 1 [c10File] 0 (fun _ => ['z']) 0 c10Item c10File 99 99
      ("line1\nline2".data) (by decide) (by decide) (by decide) (by decide) (by decide)
      rfl rfl (by decide) (by decide) (by decide)).2 (by decide)⟩

/-! ### The Round Controller: submit, cancel, resolve -/

/-- C6: submitting a round sets the stored round to its previous value
plus one, clears the draft, and sets the finding list to the closed
findings, then the still-open findings, then the freshly sanitized ones,
in that order; cancelling leaves the persisted state exactly as
reconciliation wrote it at launch — same round as before the round began,
findings exactly the reconciled ones. -/
theorem c6_submit_cancel (st base : State) (files : List ReviewFile)
    (fresh : List DraftFinding) (now now2 : Nat) (uuid : Nat → Str) :
    ((submitState base files fresh now2 uuid).round = base.round + 1 ∧
      (submitState base files fresh now2 uuid).draft = none ∧
      (submitState base files fresh now2 uuid).findings =
        closedFindings base.findings ++ openFindings base.findings ++
        sanitize fresh (base.round + 1) files now2 uuid) ∧
    ((launchState st files now).round = st.round ∧
      (abortDone (launchState st files now)).findings =
        reconcile files st.findings now ∧
      (abortDone (launchState st files now)).cancelled = true) :=
  ⟨⟨rfl, rfl, rfl⟩, ⟨rfl, rfl, rfl⟩⟩

theorem updateFirst_append (p : Finding → Bool) (f : Finding → Finding) :
    ∀ (pre : List Finding) (t : Finding) (post : List Finding),
      (∀ u ∈ pre, ¬ p u) → p t →
      updateFirst p f (pre ++ t :: post) = pre ++ f t :: post := by
  intro pre
  induction pre with
  | nil =>
    intro t post hpre hp
    rw [List.nil_append, updateFirst, if_pos hp, List.nil_append]
  | cons x xs ih =>
    intro t post hpre hp
    rw [List.cons_append, updateFirst, if_neg (hpre x (by simp)),
      ih t post (fun u hu => hpre u (by simp [hu])) hp, List.cons_append]

/-- C8: the resolve action succeeds exactly when the (non-blank) id names
a finding whose status is currently `open`; on success it transitions the
first such finding to `resolved` stamping `updated_at`/`closed_at`, and
leaves every other finding and field untouched; for an unknown id, or one
whose findings are all already `closed_auto`/`resolved`, it is rejected
with no state produced. -/
theorem c8_resolve (base : State) (fid : Str) (now : Nat) :
    ((resolveAction base fid now).isSome ↔
      fid ≠ [] ∧ ∃ t ∈ base.findings, t.id = fid ∧ t.status = Status.open) ∧
    (∀ s', resolveAction base fid now = some s' →
      ∃ pre t post, base.findings = pre ++ t :: post ∧ t.id = fid ∧
        t.status = Status.open ∧
        (∀ u ∈ pre, ¬(u.id = fid ∧ u.status = Status.open)) ∧
        s'.findings = pre ++
          { t with status := Status.resolved, updated_at := now, closed_at := some now } ::
          post ∧
        s'.round = base.round ∧ s'.draft = base.draft ∧
        s'.session_id = base.session_id ∧ s'.updated_at = now) := by
  constructor
  · rw [resolveAction]
    by_cases hf : fid = []
    · rw [if_pos hf]
      simp [hf]
    · rw [if_neg hf]
      by_cases hsome :
          (base.findings.find? (fun i => decide (i.id = fid ∧ i.status = Status.open))).isSome
      · rw [if_pos hsome]
        simp only [Option.isSome_some, true_iff]
        refine ⟨hf, ?_⟩
        obtain ⟨t, ht, hp⟩ := List.find?_isSome.mp hsome
        exact ⟨t, ht, by simpa using hp⟩
      · rw [if_neg hsome]
        simp only [Option.isSome_none, Bool.false_eq_true, false_iff]
        rintro ⟨-, t, ht, hid, hst⟩
        exact hsome (List.find?_isSome.mpr ⟨t, ht, by simp [hid, hst]⟩)
  · intro s' hs'
    rw [resolveAction] at hs'
    by_cases hf : fid = []
    · rw [if_pos hf] at hs'
      exact absurd hs' (by simp)
    rw [if_neg hf] at hs'
    by_cases hsome :
        (base.findings.find? (fun i => decide (i.id = fid ∧ i.status = Status.open))).isSome
    case neg =>
      rw [if_neg hsome] at hs'
      exact absurd hs' (by simp)
    rw [if_pos hsome] at hs'
    obtain ⟨t, hfind⟩ := Option.isSome_iff_exists.mp hsome
    obtain ⟨hp, pre, post, hsplit, hpre⟩ := List.find?_eq_some.mp hfind
    have hpt := of_decide_eq_true hp
    have hpre' : ∀ u ∈ pre, ¬(u.id = fid ∧ u.status = Status.open) := by
      intro u hu
      have h0 := hpre u hu
      rw [Bool.not_eq_true'] at h0
      exact of_decide_eq_false h0
    have hs'' : s' =
        { base with
          findings :=
            updateFirst (fun i => decide (i.id = fid ∧ i.status = Status.open))
              (fun u =>
                { u with
                  status := Status.resolved
                  updated_at := now
                  closed_at := some now })
              base.findings
          updated_at := now } := (Option.some_inj.mp hs').symm
    refine ⟨pre, t, post, hsplit, hpt.1, hpt.2, hpre', ?_, by rw [hs''], by rw [hs''],
      by rw [hs''], by rw [hs'']⟩
    rw [hs'']
    show updateFirst _ _ base.findings = _
    rw [hsplit, updateFirst_append _ _ pre t post
      (fun u hu => by simpa using hpre' u hu) hp]

/-- A one-open-finding session state for C8's witness. -/
def c8Base : State :=
  { session_id := ['s']
    round := 2
    findings := [c1Item]
    draft := none
    updated_at := 0 }

/-- The state produced by resolving `c1Item` (id `"x"`) at time 5. -/
def c8Resolved : State :=
  { c8Base with
    findings :=
      [{ c1Item with
          status := Status.resolved
          updated_at := 5
          closed_at := some 5 }]
    updated_at := 5 }

/-- Witness for C8: resolving the open finding `"x"` succeeds and stamps
it `resolved`. -/
theorem c8_witness :
    resolveAction c8Base ['x'] 5 = some c8Resolved ∧
    ∃ pre t post, c8Base.findings = pre ++ t :: post ∧ t.id = ['x'] ∧
      t.status = Status.open ∧
      (∀ u ∈ pre, ¬(u.id = ['x'] ∧ u.status = Status.open)) ∧
      c8Resolved.findings = pre ++
        { t with status := Status.resolved, updated_at := 5, closed_at := some 5 } ::
        post ∧
      c8Resolved.round = c8Base.round ∧ c8Resolved.draft = c8Base.draft ∧
      c8Resolved.session_id = c8Base.session_id ∧ c8Resolved.updated_at = 5 :=
  ⟨by decide, (c8_resolve c8Base ['x'] 5).2 c8Resolved (by decide)⟩

/-! ### Finding-id synthesis -/

theorem natToStrAux_eq : ∀ (fuel n : Nat), n ≤ fuel →
    natToStrAux fuel n = ((Nat.digits 10 n).map Nat.digitChar).reverse := by
  intro fuel
  induction fuel with
  | zero =>
    intro n hn
    have h0 : n = 0 := by omega
    subst h0
    simp [natToStrAux]
  | succ fuel ih =>
    intro n hn
    rw [natToStrAux]
    by_cases h0 : n = 0
    · subst h0
      simp
    · rw [if_neg h0]
      have hdiv : n / 10 ≤ fuel := by
        have := Nat.div_lt_self (Nat.pos_of_ne_zero h0) (by norm_num : 1 < 10)
        omega
      rw [ih (n / 10) hdiv, Nat.digits_def' (by norm_num : 1 < 10) (Nat.pos_of_ne_zero h0)]
      simp

theorem digitChar_inj_lt : ∀ a, a < 10 → ∀ b, b < 10 →
    Nat.digitChar a = Nat.digitChar b → a = b := by
  decide

theorem map_digitChar_inj : ∀ (d1 d2 : List Nat), (∀ x ∈ d1, x < 10) → (∀ x ∈ d2, x < 10) →
    d1.map Nat.digitChar = d2.map Nat.digitChar → d1 = d2 := by
  intro d1
  induction d1 with
  | nil =>
    intro d2 _ _ h
    cases d2 with
    | nil => rfl
    | cons y ys => simp at h
  | cons x xs ih =>
    intro d2 h1 h2 h
    cases d2 with
    | nil => simp at h
    | cons y ys =>
      simp only [List.map_cons, List.cons.injEq] at h
      have hx := digitChar_inj_lt x (h1 x (by simp)) y (h2 y (by simp)) h.1
      rw [hx, ih ys (fun z hz => h1 z (by simp [hz])) (fun z hz => h2 z (by simp [hz])) h.2]

theorem natToStr_inj_pos (m n : Nat) (hm : 0 < m) (hn : 0 < n)
    (h : natToStr m = natToStr n) : m = n := by
  rw [natToStr, natToStr, if_neg (by omega), if_neg (by omega),
    natToStrAux_eq m m le_rfl, natToStrAux_eq n n le_rfl] at h
  rw [List.reverse_inj] at h
  have hd := map_digitChar_inj _ _ (fun x hx => Nat.digits_lt_base (by norm_num) hx)
    (fun x hx => Nat.digits_lt_base (by norm_num) hx) h
  have h2 := congrArg (Nat.ofDigits 10) hd
  rw [Nat.ofDigits_digits, Nat.ofDigits_digits] at h2
  exact_mod_cast h2

theorem natToStr_no_us : ∀ n : Nat, '_' ∉ natToStr n := by
  have haux : ∀ fuel n : Nat, '_' ∉ natToStrAux fuel n := by
    intro fuel
    induction fuel with
    | zero =>
      intro n
      simp [natToStrAux]
    | succ fuel ih =>
      intro n
      rw [natToStrAux]
      by_cases h0 : n = 0
      · rw [if_pos h0]
        simp
      · rw [if_neg h0]
        intro hmem
        rcases List.mem_append.mp hmem with h | h
        · exact ih (n / 10) h
        · have hlt : n % 10 < 10 := Nat.mod_lt _ (by norm_num)
          have hne : ∀ k, k < 10 → Nat.digitChar k ≠ '_' := by decide
          rw [List.mem_singleton] at h
          exact hne _ hlt h.symm
  intro n
  rw [natToStr]
  by_cases h0 : n = 0
  · rw [if_pos h0]
    decide
  · rw [if_neg h0]
    exact haux n n

theorem underscore_sep_inj : ∀ (a b x y : Str), '_' ∉ a → '_' ∉ b →
    a ++ '_' :: x = b ++ '_' :: y → a = b ∧ x = y := by
  intro a
  induction a with
  | nil =>
    intro b x y _ hb h
    cases b with
    | nil =>
      simp only [List.nil_append, List.cons.injEq] at h
      exact ⟨rfl, h.2⟩
    | cons c bs =>
      simp only [List.nil_append, List.cons_append, List.cons.injEq] at h
      exact absurd (h.1 ▸ List.mem_cons_self c bs) hb
  | cons c as ih =>
    intro b x y ha hb h
    cases b with
    | nil =>
      simp only [List.nil_append, List.cons_append, List.cons.injEq] at h
      exact absurd (h.1.symm ▸ List.mem_cons_self c as) ha
    | cons d bs =>
      simp only [List.cons_append, List.cons.injEq] at h
      obtain ⟨h1, h2⟩ := h
      obtain ⟨hab, hxy⟩ :=
        ih bs x y (fun hm => ha (by simp [hm])) (fun hm => hb (by simp [hm])) h2
      exact ⟨by rw [h1, hab], hxy⟩

/-- Two synthesized ids with the same round but different batch positions
are distinct, whatever the random suffixes are. -/
theorem synthId_inj (r i j : Nat) (u v : Str) (h : synthId r i u = synthId r j v) : i = j := by
  rw [synthId, synthId] at h
  have h0 : "finding_".data ++ (natToStr r ++ ('_' :: (natToStr (i + 1) ++ ('_' :: u)))) =
      "finding_".data ++ (natToStr r ++ ('_' :: (natToStr (j + 1) ++ ('_' :: v)))) := by
    simpa [List.append_assoc] using h
  have h1 := List.append_cancel_left h0
  have h2 := List.append_cancel_left h1
  have h4 : natToStr (i + 1) ++ '_' :: u = natToStr (j + 1) ++ '_' :: v := by
    simpa using h2
  have h5 := underscore_sep_inj _ _ _ _ (natToStr_no_us (i + 1)) (natToStr_no_us (j + 1)) h4
  have := natToStr_inj_pos (i + 1) (j + 1) (by omega) (by omega) h5.1
  omega

theorem sanitizeOne_id_synth (round : Nat) (files : List ReviewFile) (now : Nat)
    (uuid : Nat → Str) (index : Nat) (item : DraftFinding) (f : Finding)
    (h : f ∈ sanitizeOne round files now uuid index item)
    (hid : ∀ raw, item.id = some raw → trimStr raw = []) :
    f.id = synthId round index (uuid index) := by
  obtain ⟨s, e, fl, -, -, -, -, -, -, -, -, -, hrec⟩ :=
    sanitizeOne_mem round files now uuid index item f h
  subst hrec
  cases hraw : item.id with
  | none => rfl
  | some raw =>
    dsimp only
    exact if_pos (hid raw hraw)

theorem sanitizeOne_cases (round : Nat) (files : List ReviewFile) (now : Nat)
    (uuid : Nat → Str) (index : Nat) (item : DraftFinding) :
    sanitizeOne round files now uuid index item = [] ∨
    ∃ f, sanitizeOne round files now uuid index item = [f] := by
  rw [sanitizeOne]
  by_cases h1 : item.file = []
  · rw [if_pos h1]
    exact Or.inl rfl
  rw [if_neg h1]
  by_cases h2 : trimStr item.comment = []
  · rw [if_pos h2]
    exact Or.inl rfl
  rw [if_neg h2]
  cases h3 : isSide item.side with
  | false => simp
  | true =>
  cases h4 : isCategory item.category with
  | false => simp
  | true =>
  cases h5 : isSeverity item.severity with
  | false => simp
  | true =>
  simp only [Bool.not_true, Bool.false_eq_true, if_false]
  cases hs : item.start_line with
  | nonFinite => exact Or.inl rfl
  | finite s =>
  cases he : item.end_line with
  | nonFinite => exact Or.inl rfl
  | finite e =>
  cases hm : mapGet files item.file with
  | none => exact Or.inl rfl
  | some fl =>
  dsimp only
  by_cases h6 : trimStr (anchor (if item.side = "deletions".data then fl.before else fl.after)
      (max 1 ⌊min s e⌋) (max (max 1 ⌊min s e⌋) ⌊max s e⌋)).selected = []
  · rw [if_pos h6]
    exact Or.inl rfl
  · rw [if_neg h6]
    exact Or.inr ⟨_, rfl⟩

theorem sanitizeAux_id_bound (round : Nat) (files : List ReviewFile) (now : Nat)
    (uuid : Nat → Str) (items : List DraftFinding) (k : Nat) (f : Finding)
    (hmem : f ∈ sanitizeAux round files now uuid items k)
    (hblank : ∀ item ∈ items, ∀ raw, item.id = some raw → trimStr raw = []) :
    ∃ m, k ≤ m ∧ f.id = synthId round m (uuid m) := by
  obtain ⟨j, item, hj, hf⟩ := mem_sanitizeAux round files now uuid items k f hmem
  have hitem : item ∈ items := List.getElem?_mem hj
  exact ⟨k + j, by omega,
    sanitizeOne_id_synth round files now uuid (k + j) item f hf (hblank item hitem)⟩

/-- C3 (amended): within one submitted batch, all findings whose ids were
synthesized (no caller-supplied id, or a blank one) receive pairwise
distinct ids — distinct batch positions give distinct ids regardless of
the random suffixes.  Uniqueness is *not* enforced for non-blank
caller-supplied ids (see the counterexample): those are used verbatim. -/
theorem c3_synth_ids_distinct (items : List DraftFinding) (round : Nat)
    (files : List ReviewFile) (now : Nat) (uuid : Nat → Str)
    (hblank : ∀ item ∈ items, ∀ raw, item.id = some raw → trimStr raw = []) :
    List.Pairwise (fun a b => a ≠ b)
      ((sanitize items round files now uuid).map (fun f => f.id)) := by
  rw [sanitize]
  suffices h : ∀ (its : List DraftFinding) (k : Nat),
      (∀ item ∈ its, ∀ raw, item.id = some raw → trimStr raw = []) →
      List.Pairwise (fun a b => a ≠ b)
        ((sanitizeAux round files now uuid its k).map (fun f => f.id)) from
    h items 0 hblank
  intro its
  induction its with
  | nil =>
    intro k _
    simp [sanitizeAux]
  | cons x xs ih =>
    intro k hbl
    rw [sanitizeAux, List.map_append, List.pairwise_append]
    refine ⟨?_, ih (k + 1) (fun item hm => hbl item (by simp [hm])), ?_⟩
    · rcases sanitizeOne_cases round files now uuid k x with h | ⟨f, h⟩ <;> simp [h]
    · intro a ha b hb
      obtain ⟨f, hfmem, rfl⟩ := List.mem_map.mp ha
      obtain ⟨g, hgmem, rfl⟩ := List.mem_map.mp hb
      rw [sanitizeOne_id_synth round files now uuid k x f hfmem (hbl x (by simp))]
      obtain ⟨m, hm, hgid⟩ :=
        sanitizeAux_id_bound round files now uuid xs (k + 1) g hgmem
          (fun item hmem => hbl item (by simp [hmem]))
      rw [hgid]
      intro heq
      have := synthId_inj round k m (uuid k) (uuid m) heq
      omega

/-- An empty session state. -/
def c3Base : State :=
  { session_id := ['s']
    round := 0
    findings := []
    draft := none
    updated_at := 0 }

/-- A valid draft item carrying the caller-supplied id `"dup"`. -/
def c3Dup : DraftFinding :=
  { c5Item with id := some ("dup".data) }

/-- C3 counterexample: submitting a batch whose two (otherwise valid)
items both carry the caller-supplied id `"dup"` produces a findings list
with two findings of the same id — `sanitize` never deduplicates
caller-supplied ids. -/
theorem c3_counterexample :
    ((submitState c3Base [c5File] [c3Dup, c3Dup] 0 (fun _ => ['z'])).findings.map
      (fun f => f.id)) = ["dup".data, "dup".data] ∧
    ¬ List.Pairwise (fun a b => a ≠ b)
      ((submitState c3Base [c5File] [c3Dup, c3Dup] 0 (fun _ => ['z'])).findings.map
        (fun f => f.id)) := by
  exact ⟨by decide, by decide⟩

/-- Witness for C3's amended theorem: a one-item batch with no
caller-supplied id gets pairwise-distinct synthesized ids. -/
theorem c3_witness :
    (∀ item ∈ [c5Item], ∀ raw : Str, item.id = some raw → trimStr raw = []) ∧
    List.Pairwise (fun a b : Str => a ≠ b)
      ((sanitize [c5Item] 1 [c5File] 0 (fun _ => ['z'])).map (fun f => f.id)) :=
  ⟨fun item hm raw hraw => by
      rw [List.mem_singleton] at hm
      rw [hm] at hraw
      exact absurd hraw (by simp [c5Item]),
    c3_synth_ids_distinct [c5Item] 1 [c5File] 0 (fun _ => ['z'])
      (fun item hm raw hraw => by
        rw [List.mem_singleton] at hm
        rw [hm] at hraw
        exact absurd hraw (by simp [c5Item]))⟩

end DiffReview
